import Mathlib

/-!
Verification of the wire codec, command model, key-value store and
connection loop of a small Redis-like server.

The development shallowly embeds the program: byte streams are lists of
natural numbers (byte values), the protocol value tree is an inductive
type mirroring the implementation enum, the fallible codec and command
parser return values in an Except monad, and the stateful SET/GET
operations are explicit functions from a store and a monotonic clock
reading to a reply and an updated store.  Recursion in the deserializer
is made total with an explicit fuel argument so every definition is
executable by the kernel; a fuel of one more than the input length is
always sufficient because each recursive step consumes input.
-/

namespace Redis

/-- Byte sequence of an ASCII string literal: the implementation compares
and produces ASCII text (command names, replies, error messages). -/
def ascii (s : String) : List Nat := s.data.map Char.toNat

/-- Decidable equality for the Except values returned by the embedded
fallible operations. -/
instance exceptDecEq {ε α : Type} [DecidableEq ε] [DecidableEq α] :
    DecidableEq (Except ε α)
  | .error a, .error b =>
    if h : a = b then .isTrue (by rw [h])
    else .isFalse (by intro hh; injection hh; contradiction)
  | .ok a, .ok b =>
    if h : a = b then .isTrue (by rw [h])
    else .isFalse (by intro hh; injection hh; contradiction)
  | .error _, .ok _ => .isFalse (by intro h; exact Except.noConfusion h)
  | .ok _, .error _ => .isFalse (by intro h; exact Except.noConfusion h)

/-! State machine for UTF-8 validity, modelling the validation performed
by String::from_utf8 and by read_line in the implementation.  The states
record how many continuation bytes are still expected together with the
restricted ranges after the lead bytes 0xE0, 0xED, 0xF0 and 0xF4. -/

/-- States of the UTF-8 validation automaton. -/
inductive U8State
  | start
  | c1
  | c2
  | c3
  | e0
  | ed
  | f0
  | f4
deriving DecidableEq

/-- A UTF-8 continuation byte lies in 0x80..0xBF. -/
def contByte (b : Nat) : Bool := 128 ≤ b && b ≤ 191

/-- One step of the UTF-8 validation automaton. -/
def u8step : U8State → Nat → Option U8State
  | .start, b =>
    if b ≤ 127 then some .start
    else if 194 ≤ b && b ≤ 223 then some .c1
    else if b = 224 then some .e0
    else if (225 ≤ b && b ≤ 236) || b = 238 || b = 239 then some .c2
    else if b = 237 then some .ed
    else if b = 240 then some .f0
    else if 241 ≤ b && b ≤ 243 then some .c3
    else if b = 244 then some .f4
    else none
  | .c1, b => if contByte b then some .start else none
  | .c2, b => if contByte b then some .c1 else none
  | .c3, b => if contByte b then some .c2 else none
  | .e0, b => if 160 ≤ b && b ≤ 191 then some .c1 else none
  | .ed, b => if 128 ≤ b && b ≤ 159 then some .c1 else none
  | .f0, b => if 144 ≤ b && b ≤ 191 then some .c2 else none
  | .f4, b => if 128 ≤ b && b ≤ 143 then some .c2 else none

/-- Run the UTF-8 automaton over a byte sequence. -/
def utf8Run : U8State → List Nat → Option U8State
  | s, [] => some s
  | s, b :: r =>
    match u8step s b with
    | some s2 => utf8Run s2 r
    | none => none

/-- A byte sequence is valid UTF-8 iff the automaton consumes it and ends
between code points. -/
def utf8Valid (l : List Nat) : Bool := utf8Run .start l = some .start

/-! Decimal notation for integers, modelling i64::to_string on the
serializing side and i64::from_str on the parsing side. -/

/-- Accumulate the decimal digits of a number, most significant first.
The first argument is fuel; a fuel of at least the number itself is
always sufficient since the number shrinks by a factor of ten each
step. -/
def natToDecAux : Nat → Nat → List Nat → List Nat
  | 0, _, acc => acc
  | _+1, 0, acc => acc
  | f+1, n+1, acc => natToDecAux f ((n + 1) / 10) ((((n + 1) % 10) + 48) :: acc)

/-- ASCII decimal digits of a natural number, as produced by to_string. -/
def natToDec (n : Nat) : List Nat := if n = 0 then [48] else natToDecAux n n []

/-- ASCII decimal rendering of an integer, as produced by to_string:
an optional minus sign followed by the digits. -/
def intToDec : Int → List Nat
  | .ofNat n => natToDec n
  | .negSucc m => 45 :: natToDec (m + 1)

/-- Numeric value of a digit sequence, folding left as from_str does. -/
def digitsVal (l : List Nat) : Nat := l.foldl (fun a b => a * 10 + (b - 48)) 0

/-- All bytes are ASCII digits. -/
def allDigits (l : List Nat) : Bool := l.all (fun b => 48 ≤ b && b ≤ 57)

/-- Split an optional leading sign from a decimal literal, as from_str
does: a leading minus negates, a leading plus is skipped. -/
def splitSign (l : List Nat) : Bool × List Nat :=
  match l with
  | b :: r => if b = 45 then (true, r) else if b = 43 then (false, r) else (false, l)
  | [] => (false, [])

/-- Parse a signed 64-bit decimal integer, modelling i64::from_str:
optional sign, at least one digit, all digits, result within the i64
range; anything else is an error. -/
def parseI64 (l : List Nat) : Except (List Nat) Int :=
  let p := splitSign l
  if p.2.isEmpty || !allDigits p.2 then .error (ascii (r"invalid digit found in string"))
  else
    let v : Int := if p.1 then -(digitsVal p.2 : Int) else (digitsVal p.2 : Int)
    if v < -(2 ^ 63) || (2 ^ 63 : Int) ≤ v then .error (ascii (r"number out of range"))
    else .ok v

/-! The byte stream primitives used by deserialize. -/

/-- Split a stream at the first line feed, inclusively; at end of input
the whole remainder is the line.  This is the byte-consumption behaviour
of read_line. -/
def takeLine : List Nat → List Nat × List Nat
  | [] => ([], [])
  | b :: r =>
    if b = 10 then ([10], r)
    else
      let p := takeLine r
      (b :: p.1, p.2)

/-- read_line: consume one line and require it to be valid UTF-8. -/
def readLine (src : List Nat) : Except (List Nat) (List Nat × List Nat) :=
  let p := takeLine src
  if utf8Valid p.1 then .ok p else .error (ascii (r"stream did not contain valid UTF-8"))

/-- strip_trailing_newline: remove one trailing CR LF, or else one
trailing LF, or nothing. -/
def stripTrailingNewline (l : List Nat) : List Nat :=
  match l.reverse with
  | b1 :: b2 :: t =>
    if b1 = 10 then (if b2 = 13 then t.reverse else (b2 :: t).reverse) else l
  | b1 :: t => if b1 = 10 then t.reverse else l
  | [] => l

/-- read_exact: take exactly n bytes or fail at end of input. -/
def readExact (n : Nat) (src : List Nat) : Except (List Nat) (List Nat × List Nat) :=
  if n ≤ src.length then .ok (src.take n, src.drop n) else .error (ascii (r"early eof"))

/-- expect_new_line: consume two bytes and require them to be CR LF. -/
def expectNewLine (src : List Nat) : Except (List Nat) (List Nat) :=
  match readExact 2 src with
  | .error e => .error e
  | .ok (nl, rest) =>
    if nl = [13, 10] then .ok rest
    else .error (ascii (r"expected CR LF"))

/-! The wire-level protocol value tree (enum RespDataType). -/

/-- Protocol values: simple strings, errors, 64-bit integers, bulk
strings with a distinguished null variant, and arrays with a
distinguished null variant. -/
inductive RespDataType
  | simpleStrings (s : List Nat)
  | errors (s : List Nat)
  | integers (n : Int)
  | bulkStrings (s : Option (List Nat))
  | arrays (a : Option (List RespDataType))

mutual

/-- serialize: tag byte followed by the type-specific encoding, with a
CR LF after every scalar or length line; a null bulk string or array is
written as the length line -1. -/
def serialize : RespDataType → List Nat
  | .simpleStrings s => 43 :: (s ++ [13, 10])
  | .errors s => 45 :: (s ++ [13, 10])
  | .integers n => 58 :: (intToDec n ++ [13, 10])
  | .bulkStrings (some s) => 36 :: (natToDec s.length ++ [13, 10] ++ s ++ [13, 10])
  | .bulkStrings none => 36 :: [45, 49, 13, 10]
  | .arrays (some a) => 42 :: (natToDec a.length ++ [13, 10] ++ serializeList a)
  | .arrays none => 42 :: [45, 49, 13, 10]

/-- Concatenated serializations of the elements of an array. -/
def serializeList : List RespDataType → List Nat
  | [] => []
  | v :: vs => serialize v ++ serializeList vs

end

mutual

/-- deserialize, with explicit fuel: read the tag byte and dispatch.
Lines are read with read_line (UTF-8 checked, stripped of the trailing
newline); bulk-string and array headers are parsed as i64 and a
non-negative count reads that many payload bytes or elements, while any
negative count yields the null variant. -/
def deserializeF : Nat → List Nat → Except (List Nat) (RespDataType × List Nat)
  | 0, _ => .error (ascii (r"recursion limit reached"))
  | f+1, src0 =>
    match src0 with
    | [] => .error (ascii (r"early eof"))
    | tag :: src =>
      if tag = 43 then
        match readLine src with
        | .error e => .error e
        | .ok (line, rest) => .ok (.simpleStrings (stripTrailingNewline line), rest)
      else if tag = 45 then
        match readLine src with
        | .error e => .error e
        | .ok (line, rest) => .ok (.errors (stripTrailingNewline line), rest)
      else if tag = 58 then
        match readLine src with
        | .error e => .error e
        | .ok (line, rest) =>
          match parseI64 (stripTrailingNewline line) with
          | .error e => .error e
          | .ok n => .ok (.integers n, rest)
      else if tag = 36 then
        match readLine src with
        | .error e => .error e
        | .ok (line, rest) =>
          match parseI64 (stripTrailingNewline line) with
          | .error e => .error e
          | .ok n =>
            if 0 ≤ n then
              match readExact n.toNat rest with
              | .error e => .error e
              | .ok (str, rest2) =>
                match expectNewLine rest2 with
                | .error e => .error e
                | .ok rest3 => .ok (.bulkStrings (some str), rest3)
            else .ok (.bulkStrings none, rest)
      else if tag = 42 then
        match readLine src with
        | .error e => .error e
        | .ok (line, rest) =>
          match parseI64 (stripTrailingNewline line) with
          | .error e => .error e
          | .ok n =>
            if 0 ≤ n then
              match deserializeListF f n.toNat rest with
              | .error e => .error e
              | .ok (vec, rest2) => .ok (.arrays (some vec), rest2)
            else .ok (.arrays none, rest)
      else .error (ascii (r"unknown message tag"))

/-- The element loop of the array branch: deserialize a counted sequence
of values, threading the remaining input. -/
def deserializeListF : Nat → Nat → List Nat → Except (List Nat) (List RespDataType × List Nat)
  | _, 0, src => .ok ([], src)
  | 0, _+1, _ => .error (ascii (r"recursion limit reached"))
  | f+1, n+1, src =>
    match deserializeF f src with
    | .error e => .error e
    | .ok (v, rest) =>
      match deserializeListF f n rest with
      | .error e => .error e
      | .ok (vs, rest2) => .ok (v :: vs, rest2)

end

/-- deserialize one protocol value from the front of a byte stream,
returning it with the unconsumed tail.  The fuel one beyond the input
length can never be exhausted, since every recursive step first consumes
at least one byte of input. -/
def deserialize (src : List Nat) : Except (List Nat) (RespDataType × List Nat) :=
  deserializeF (src.length + 1) src

/-- Constructible protocol values that respect the documented wire
invariants: one-line UTF-8 simple strings and errors without an embedded
line feed, integers in the i64 range, and payload lengths representable
as i64 (any vector fits).  These are exactly the values an i64-based
implementation can construct and frame unambiguously. -/
inductive Valid : RespDataType → Prop
  | simpleStrings {s : List Nat} : utf8Valid s = true → 10 ∉ s → Valid (.simpleStrings s)
  | errors {s : List Nat} : utf8Valid s = true → 10 ∉ s → Valid (.errors s)
  | integers {n : Int} : -(2 ^ 63) ≤ n → n < 2 ^ 63 → Valid (.integers n)
  | bulkSome {s : List Nat} : s.length < 2 ^ 63 → Valid (.bulkStrings (some s))
  | bulkNone : Valid (.bulkStrings none)
  | arrSome {a : List RespDataType} : a.length < 2 ^ 63 → (∀ v ∈ a, Valid v) →
      Valid (.arrays (some a))
  | arrNone : Valid (.arrays none)

/-! The stored value domain and the TTL-annotated entries of the
key-value store (enum RedisDataType, enum RedisDataTypeWithTTL,
HashMap String RedisDataTypeWithTTL). -/

/-- Values the store can hold: strings, integers and arrays. -/
inductive RedisDataType
  | strings (s : List Nat)
  | integers (n : Int)
  | array (a : List RedisDataType)

/-- A stored value with its lifecycle: no deadline, or an absolute
deadline on the monotonic clock (modelled as a natural number). -/
inductive RedisDataTypeWithTTL
  | infinite (v : RedisDataType)
  | finite (v : RedisDataType) (deadline : Nat)

/-- The key-value store: an association list from UTF-8 key bytes to
entries, with at most one binding per key, modelling the hash map.
String keys are identified with their UTF-8 byte sequences, which is
faithful because UTF-8 decoding is injective on the valid sequences the
implementation admits. -/
abbrev Store := List (List Nat × RedisDataTypeWithTTL)

/-- Look a key up in the store. -/
def storeGet : Store → List Nat → Option RedisDataTypeWithTTL
  | [], _ => none
  | (k, v) :: t, key => if k = key then some v else storeGet t key

/-- Bind a key in the store, replacing an existing binding in place or
appending a new one: the entry either occupied or vacant cases of the
hash-map entry interface. -/
def storeInsert : Store → List Nat → RedisDataTypeWithTTL → Store
  | [], key, v => [(key, v)]
  | (k, w) :: t, key, v =>
    if k = key then (k, v) :: t else (k, w) :: storeInsert t key v

/-- Remove a key from the store. -/
def storeRemove : Store → List Nat → Store
  | [], _ => []
  | (k, w) :: t, key =>
    if k = key then storeRemove t key else (k, w) :: storeRemove t key

mutual

/-- TryFrom RespDataType for RedisDataType: non-null bulk strings become
stored strings, integers become integers, non-null arrays convert
elementwise; every other protocol value has no store representation. -/
def respToRedis : RespDataType → Except (List Nat) RedisDataType
  | .bulkStrings (some x) => .ok (.strings x)
  | .integers n => .ok (.integers n)
  | .arrays (some a) =>
    match respToRedisList a with
    | .error e => .error e
    | .ok l => .ok (.array l)
  | _ => .error (ascii (r"impossible"))

/-- Elementwise conversion of an array body, stopping at the first
failure as collecting into a Result does. -/
def respToRedisList : List RespDataType → Except (List Nat) (List RedisDataType)
  | [] => .ok []
  | x :: xs =>
    match respToRedis x with
    | .error e => .error e
    | .ok v =>
      match respToRedisList xs with
      | .error e => .error e
      | .ok vs => .ok (v :: vs)

end

/-! The typed command model (struct Ping, Echo, Set, Get and enum
RespCommand) and its validation from a protocol value. -/

/-- PING with an optional payload. -/
structure Ping where
  message : Option RespDataType

/-- ECHO with its payload. -/
structure Echo where
  message : RespDataType

/-- SET with key, value and an optional expiry duration in
milliseconds. -/
structure Set where
  key : RespDataType
  value : RespDataType
  expiry : Option Nat

/-- GET with its key. -/
structure Get where
  key : RespDataType

/-- The closed command set. -/
inductive RespCommand
  | ping (c : Ping)
  | echo (c : Echo)
  | set (c : Set)
  | get (c : Get)

/-- expect_bulk_strings: accept any bulk string (null included), reject
every other protocol value. -/
def expectBulkStrings (v : RespDataType) : Except (List Nat) RespDataType :=
  match v with
  | .bulkStrings _ => .ok v
  | _ => .error (ascii (r"expected bulk strings"))

/-- into_bulk_strings: extract the optional payload of a bulk string. -/
def intoBulkStrings (v : RespDataType) : Except (List Nat) (Option (List Nat)) :=
  match v with
  | .bulkStrings x => .ok x
  | _ => .error (ascii (r"expected bulk strings"))

/-- into_integers: extract the payload of an integer value. -/
def intoIntegers (v : RespDataType) : Except (List Nat) Int :=
  match v with
  | .integers x => .ok x
  | _ => .error (ascii (r"expected integers"))

/-- Lower-case one ASCII byte, as to_ascii_lowercase does bytewise. -/
def toLowerByte (b : Nat) : Nat := if 65 ≤ b && b ≤ 90 then b + 32 else b

/-- TryFrom RespDataType for RespCommand: the request must be a non-null
array whose first element is a non-null bulk string; its lower-cased
UTF-8 text selects the command, and the per-command arity and type rules
follow the implementation exactly (including the silently ignored
non-bulk PING argument and the integer-typed PX duration). -/
def tryFromResp (value : RespDataType) : Except (List Nat) RespCommand :=
  match value with
  | .arrays (some elems) =>
    match elems with
    | .bulkStrings (some str) :: args =>
      let lowered := str.map toLowerByte
      if utf8Valid lowered then
        if lowered = ascii (r"ping") then
          .ok (.ping ⟨args.head?.bind (fun x => (expectBulkStrings x).toOption)⟩)
        else if lowered = ascii (r"echo") then
          match args.head? with
          | none => .error (ascii (r"missing argument message"))
          | some x =>
            match expectBulkStrings x with
            | .error _ => .error (ascii (r"message is not bulk string"))
            | .ok m => .ok (.echo ⟨m⟩)
        else if lowered = ascii (r"set") then
          match args[0]? with
          | none => .error (ascii (r"missing argument key"))
          | some k =>
            match expectBulkStrings k with
            | .error _ => .error (ascii (r"key is not bulk string"))
            | .ok key =>
              match args[1]? with
              | none => .error (ascii (r"missing argument value"))
              | some w =>
                match expectBulkStrings w with
                | .error _ => .error (ascii (r"value is not bulk string"))
                | .ok val =>
                  match args[2]?, args[3]? with
                  | none, none => .ok (.set ⟨key, val, none⟩)
                  | some expiryType, some expiryValue =>
                    (match intoBulkStrings expiryType with
                     | .error e => .error e
                     | .ok none => .error (ascii (r"expected PX"))
                     | .ok (some tb) =>
                       if utf8Valid tb then
                         let ttlType := tb.map toLowerByte
                         match intoIntegers expiryValue with
                         | .error e => .error e
                         | .ok n =>
                           if n < 0 then
                             .error (ascii (r"out of range integral type conversion attempted"))
                           else if ttlType = ascii (r"px") then
                             .ok (.set ⟨key, val, some n.toNat⟩)
                           else .error (ascii (r"expected PX"))
                       else .error (ascii (r"invalid utf-8 sequence")))
                  | _, _ => .error (ascii (r"unexpected argument"))
        else if lowered = ascii (r"get") then
          match args[0]? with
          | none => .error (ascii (r"missing argument key"))
          | some k =>
            match expectBulkStrings k with
            | .error _ => .error (ascii (r"key is not bulk string"))
            | .ok key => .ok (.get ⟨key⟩)
        else .error (ascii (r"unknown command"))
      else .error (ascii (r"invalid utf-8 sequence"))
    | _ => .error (ascii (r"expected bulk string"))
  | _ => .error (ascii (r"expected array"))

/-! Execution of the four commands.  The monotonic clock reading at
execution time is passed explicitly. -/

/-- Ping::execute: the payload, or the simple string PONG. -/
def pingExecute (c : Ping) : Except (List Nat) RespDataType :=
  .ok (c.message.getD (.simpleStrings (ascii (r"PONG"))))

/-- Echo::execute: the payload verbatim. -/
def echoExecute (c : Echo) : Except (List Nat) RespDataType :=
  .ok c.message

/-- Set::execute: extract the key (non-null bulk string with valid UTF-8
bytes), convert the value to a stored value, build the entry (a finite
deadline of now plus the duration when an expiry was given) and
unconditionally bind the key to it; reply with the simple string OK. -/
def setExecute (c : Set) (now : Nat) (ctx : Store) :
    Except (List Nat) RespDataType × Store :=
  match intoBulkStrings c.key with
  | .error e => (.error e, ctx)
  | .ok none => (.error (ascii (r"empty key")), ctx)
  | .ok (some kb) =>
    if utf8Valid kb then
      match respToRedis c.value with
      | .error e => (.error e, ctx)
      | .ok v =>
        let ttl := match c.expiry with
          | some d => RedisDataTypeWithTTL.finite v (now + d)
          | none => RedisDataTypeWithTTL.infinite v
        (.ok (.simpleStrings (ascii (r"OK"))), storeInsert ctx kb ttl)
    else (.error (ascii (r"invalid utf-8 sequence")), ctx)

/-- Get::execute: extract the key as in SET, then look it up.  A missing
key yields the null bulk string; a string entry without deadline yields
the string; a string entry whose deadline has passed is removed and the
null bulk string returned, otherwise the string is returned; an entry
holding a non-string is a type error. -/
def getExecute (c : Get) (now : Nat) (ctx : Store) :
    Except (List Nat) RespDataType × Store :=
  match intoBulkStrings c.key with
  | .error e => (.error e, ctx)
  | .ok none => (.error (ascii (r"empty key")), ctx)
  | .ok (some kb) =>
    if utf8Valid kb then
      match storeGet ctx kb with
      | some (.infinite (.strings s)) => (.ok (.bulkStrings (some s)), ctx)
      | some (.finite (.strings s) ttl) =>
        if ttl < now then (.ok (.bulkStrings none), storeRemove ctx kb)
        else (.ok (.bulkStrings (some s)), ctx)
      | some _ => (.error (ascii (r"entry is not a bulk string")), ctx)
      | none => (.ok (.bulkStrings none), ctx)
    else (.error (ascii (r"invalid utf-8 sequence")), ctx)

/-- Dispatch one parsed command against the store. -/
def executeCommand : RespCommand → Nat → Store → Except (List Nat) RespDataType × Store
  | .ping c, _, ctx => (pingExecute c, ctx)
  | .echo c, _, ctx => (echoExecute c, ctx)
  | .set c, now, ctx => setExecute c now ctx
  | .get c, now, ctx => getExecute c now ctx

/-- One iteration of the connection loop after a request value has been
decoded: validate it into a command and execute it, turning any failure
on the way into exactly one error reply and leaving the loop to
continue. -/
def processValue (now : Nat) (ctx : Store) (req : RespDataType) :
    RespDataType × Store :=
  match tryFromResp req with
  | .error e => (.errors e, ctx)
  | .ok cmd =>
    match executeCommand cmd now ctx with
    | (.ok reply, ctx2) => (reply, ctx2)
    | (.error e, ctx2) => (.errors e, ctx2)

/-- The connection loop over a sequence of decoded requests, each tagged
with the monotonic clock reading at its execution: one reply per
request, the store threading through. -/
def serverRun : List (Nat × RespDataType) → Store → List RespDataType × Store
  | [], ctx => ([], ctx)
  | (now, req) :: t, ctx =>
    let p := processValue now ctx req
    let q := serverRun t p.2
    (p.1 :: q.1, q.2)

/-- The stored value inside an entry, disregarding its deadline. -/
def entryValue : RedisDataTypeWithTTL → RedisDataType
  | .infinite v => v
  | .finite v _ => v

/-- Every entry of the store holds a string value. -/
def StoreOk (ctx : Store) : Prop :=
  ∀ k e, storeGet ctx k = some e → ∃ s, entryValue e = RedisDataType.strings s

/-- A nested sample value used to instantiate the round-trip law. -/
def exampleValue : RespDataType :=
  .arrays (some [.bulkStrings (some [104, 105]), .integers (-12), .bulkStrings none,
    .arrays (some [.simpleStrings [79, 75]])])

/-- The request SET foo bar PX 50 encoded, as every client request is,
as an array of bulk strings. -/
def setFooBarPx50 : RespDataType :=
  .arrays (some [.bulkStrings (some (ascii (r"SET"))), .bulkStrings (some (ascii (r"foo"))),
    .bulkStrings (some (ascii (r"bar"))), .bulkStrings (some (ascii (r"PX"))),
    .bulkStrings (some (ascii (r"50")))])

/-! Lemmas about the UTF-8 automaton and the line primitives. -/

theorem utf8Run_append (a : List Nat) : ∀ (s : U8State) (b : List Nat),
    utf8Run s (a ++ b) = (utf8Run s a).bind (fun s2 => utf8Run s2 b) := by
  induction a with
  | nil => intro s b; simp [utf8Run]
  | cons c t ih =>
    intro s b
    cases h : u8step s c with
    | none => simp [utf8Run, h]
    | some s2 => simp [utf8Run, h, ih]

theorem utf8Valid_append {a b : List Nat} (ha : utf8Valid a = true)
    (hb : utf8Valid b = true) : utf8Valid (a ++ b) = true := by
  simp only [utf8Valid, decide_eq_true_eq] at ha hb ⊢
  rw [utf8Run_append, ha]
  simpa using hb

theorem utf8Valid_ascii : ∀ {l : List Nat}, (∀ b ∈ l, b ≤ 127) → utf8Valid l = true := by
  intro l
  induction l with
  | nil => intro _; rfl
  | cons c t ih =>
    intro h
    have hc : c ≤ 127 := h c (by simp)
    simp only [utf8Valid, decide_eq_true_eq, utf8Run, u8step, if_pos hc] at ih ⊢
    exact ih (fun b hb => h b (by simp [hb]))

theorem takeLine_append {s : List Nat} (h : ∀ b ∈ s, b ≠ 10) (r : List Nat) :
    takeLine (s ++ 10 :: r) = (s ++ [10], r) := by
  induction s with
  | nil => simp [takeLine]
  | cons c t ih =>
    have hc : c ≠ 10 := h c (by simp)
    simp [takeLine, hc, ih (fun b hb => h b (by simp [hb]))]

theorem stripTrailingNewline_crlf (s : List Nat) :
    stripTrailingNewline (s ++ [13, 10]) = s := by
  have h : (s ++ [13, 10]).reverse = 10 :: 13 :: s.reverse := by
    simp [List.reverse_append]
  simp [stripTrailingNewline, h]

theorem readLine_crlf {s : List Nat} (h10 : 10 ∉ s) (hv : utf8Valid s = true)
    (r : List Nat) : readLine ((s ++ [13, 10]) ++ r) = .ok (s ++ [13, 10], r) := by
  have h13 : ∀ b ∈ s ++ [13], b ≠ 10 := by
    intro b hb
    rcases List.mem_append.mp hb with h | h
    · exact fun he => h10 (he ▸ h)
    · simp at h; omega
  have heq : (s ++ [13, 10]) ++ r = (s ++ [13]) ++ 10 :: r := by simp
  have heq2 : (s ++ [13]) ++ [10] = s ++ [13, 10] := by simp
  have hval : utf8Valid (s ++ [13, 10]) = true := utf8Valid_append hv (by decide)
  rw [readLine, heq, takeLine_append h13 r]
  simp [heq2, hval]

/-! Lemmas about decimal rendering and parsing: every integer in the
i64 range renders to digits that parse back to it. -/

theorem natToDecAux_fuel : ∀ n f acc, n ≤ f → natToDecAux f n acc = natToDecAux n n acc := by
  intro n
  induction n using Nat.strong_induction_on with
  | _ n ih =>
    match n with
    | 0 =>
      intro f acc _
      match f with
      | 0 => rfl
      | f + 1 => rfl
    | m + 1 =>
      intro f acc hf
      match f, hf with
      | f + 1, hf =>
        show natToDecAux f ((m + 1) / 10) _ = natToDecAux m ((m + 1) / 10) _
        have hlt : (m + 1) / 10 < m + 1 := Nat.div_lt_self (Nat.succ_pos m) (by norm_num)
        rw [ih _ hlt _ _ (by omega), ih _ hlt m _ (by omega)]

theorem natToDecAux_append (n : Nat) : ∀ acc, natToDecAux n n acc = natToDecAux n n [] ++ acc := by
  induction n using Nat.strong_induction_on with
  | _ n ih =>
    match n with
    | 0 => intro acc; rfl
    | m + 1 =>
      intro acc
      have hlt : (m + 1) / 10 < m + 1 := Nat.div_lt_self (Nat.succ_pos m) (by norm_num)
      show natToDecAux m ((m + 1) / 10) _ = natToDecAux m ((m + 1) / 10) _ ++ acc
      rw [natToDecAux_fuel _ m _ (by omega), natToDecAux_fuel _ m _ (by omega),
        ih _ hlt ((((m + 1) % 10) + 48) :: acc), ih _ hlt [(((m + 1) % 10) + 48)]]
      simp

theorem natToDecAux_bytes (n : Nat) : ∀ b ∈ natToDecAux n n [], 48 ≤ b ∧ b ≤ 57 := by
  induction n using Nat.strong_induction_on with
  | _ n ih =>
    match n with
    | 0 => intro b hb; cases hb
    | m + 1 =>
      intro b hb
      have hlt : (m + 1) / 10 < m + 1 := Nat.div_lt_self (Nat.succ_pos m) (by norm_num)
      rw [show natToDecAux (m + 1) (m + 1) [] =
          natToDecAux m ((m + 1) / 10) [(((m + 1) % 10) + 48)] from rfl,
        natToDecAux_fuel _ m _ (by omega), natToDecAux_append] at hb
      rcases List.mem_append.mp hb with h | h
      · exact ih _ hlt b h
      · simp at h
        have := Nat.mod_lt (m + 1) (show 0 < 10 by norm_num)
        omega

theorem natToDec_bytes (n : Nat) : ∀ b ∈ natToDec n, 48 ≤ b ∧ b ≤ 57 := by
  unfold natToDec
  split
  · intro b hb; simp at hb; omega
  · exact natToDecAux_bytes n

theorem natToDec_ne_nil (n : Nat) : natToDec n ≠ [] := by
  unfold natToDec
  split
  · simp
  · next hn =>
    match n, hn with
    | m + 1, _ =>
      have hlt : (m + 1) / 10 < m + 1 := Nat.div_lt_self (Nat.succ_pos m) (by norm_num)
      rw [show natToDecAux (m + 1) (m + 1) [] =
          natToDecAux m ((m + 1) / 10) [(((m + 1) % 10) + 48)] from rfl,
        natToDecAux_fuel _ m _ (by omega), natToDecAux_append]
      simp

theorem digitsVal_append_digit (l : List Nat) (d : Nat) :
    digitsVal (l ++ [d]) = digitsVal l * 10 + (d - 48) := by
  simp [digitsVal, List.foldl_append]

theorem digitsVal_natToDec (n : Nat) : digitsVal (natToDec n) = n := by
  induction n using Nat.strong_induction_on with
  | _ n ih =>
    match n with
    | 0 => rfl
    | m + 1 =>
      have hlt : (m + 1) / 10 < m + 1 := Nat.div_lt_self (Nat.succ_pos m) (by norm_num)
      have hstep : natToDec (m + 1) = natToDecAux ((m + 1) / 10) ((m + 1) / 10) [] ++
          [(((m + 1) % 10) + 48)] := by
        unfold natToDec
        rw [if_neg (Nat.succ_ne_zero m),
          show natToDecAux (m + 1) (m + 1) [] =
            natToDecAux m ((m + 1) / 10) [(((m + 1) % 10) + 48)] from rfl,
          natToDecAux_fuel _ m _ (by omega), natToDecAux_append]
      rw [hstep, digitsVal_append_digit]
      rcases Nat.eq_zero_or_pos ((m + 1) / 10) with hz | hp
      · rw [hz]
        show 0 * 10 + ((m + 1) % 10 + 48 - 48) = m + 1
        have := Nat.div_add_mod (m + 1) 10
        omega
      · have hv : digitsVal (natToDec ((m + 1) / 10)) = (m + 1) / 10 := ih _ hlt
        rw [show natToDecAux ((m + 1) / 10) ((m + 1) / 10) [] = natToDec ((m + 1) / 10) by
          unfold natToDec; rw [if_neg (by omega)]] at *
        rw [hv]
        have := Nat.div_add_mod (m + 1) 10
        omega

theorem allDigits_natToDec (n : Nat) : allDigits (natToDec n) = true := by
  simp only [allDigits, List.all_eq_true]
  intro b hb
  have := natToDec_bytes n b hb
  simp
  omega

theorem parseI64_digits (b : Nat) (t : List Nat)
    (hd : ∀ x ∈ b :: t, 48 ≤ x ∧ x ≤ 57)
    (hv : (digitsVal (b :: t) : Int) < 2 ^ 63) :
    parseI64 (b :: t) = .ok (digitsVal (b :: t)) := by
  have hb := hd b (by simp)
  have hall : allDigits (b :: t) = true := by
    simp only [allDigits, List.all_eq_true]
    intro x hx
    have := hd x hx
    simp
    omega
  have hsplit : splitSign (b :: t) = (false, b :: t) := by
    rw [splitSign]
    rw [if_neg (by omega), if_neg (by omega)]
  rw [parseI64]
  simp only [hsplit, List.isEmpty_cons, hall, Bool.not_true, Bool.or_false,
    Bool.false_eq_true, if_false]
  rw [if_neg (by simp only [Bool.or_eq_true, decide_eq_true_eq]; push_cast; omega)]

theorem parseI64_neg_digits (b : Nat) (t : List Nat)
    (hd : ∀ x ∈ b :: t, 48 ≤ x ∧ x ≤ 57)
    (hv : (digitsVal (b :: t) : Int) ≤ 2 ^ 63) :
    parseI64 (45 :: b :: t) = .ok (-(digitsVal (b :: t) : Int)) := by
  have hall : allDigits (b :: t) = true := by
    simp only [allDigits, List.all_eq_true]
    intro x hx
    have := hd x hx
    simp
    omega
  have hsplit : splitSign (45 :: b :: t) = (true, b :: t) := by
    rw [splitSign]
    rw [if_pos rfl]
  rw [parseI64]
  simp only [hsplit, List.isEmpty_cons, hall, Bool.not_true, Bool.or_false,
    Bool.false_eq_true, if_false, if_pos rfl]
  rw [if_neg (by simp only [Bool.or_eq_true, decide_eq_true_eq]; push_cast; omega)]
  simp

theorem parseI64_natToDec (m : Nat) (h : (m : Int) < 2 ^ 63) :
    parseI64 (natToDec m) = .ok (m : Int) := by
  obtain ⟨b, t, hbt⟩ : ∃ b t, natToDec m = b :: t := by
    cases hd : natToDec m with
    | nil => exact absurd hd (natToDec_ne_nil m)
    | cons b t => exact ⟨b, t, rfl⟩
  have hdm := digitsVal_natToDec m
  rw [hbt] at hdm
  rw [hbt, parseI64_digits b t (by rw [← hbt]; exact natToDec_bytes m) (by rw [hdm]; exact h),
    hdm]

theorem parseI64_intToDec (n : Int) (hlo : -(2 ^ 63) ≤ n) (hhi : n < 2 ^ 63) :
    parseI64 (intToDec n) = .ok n := by
  cases n with
  | ofNat m =>
    exact parseI64_natToDec m (by exact hhi)
  | negSucc m =>
    have hm : ((m : Int) + 1) ≤ 2 ^ 63 := by
      rw [Int.negSucc_eq] at hlo
      omega
    rw [intToDec]
    obtain ⟨b, t, hbt⟩ : ∃ b t, natToDec (m + 1) = b :: t := by
      cases hd : natToDec (m + 1) with
      | nil => exact absurd hd (natToDec_ne_nil (m + 1))
      | cons b t => exact ⟨b, t, rfl⟩
    have hdm := digitsVal_natToDec (m + 1)
    rw [hbt] at hdm
    rw [hbt, parseI64_neg_digits b t (by rw [← hbt]; exact natToDec_bytes (m + 1))
      (by rw [hdm]; push_cast; omega), hdm, Int.negSucc_eq]
    push_cast
    ring_nf

theorem intToDec_bytes (n : Int) : ∀ b ∈ intToDec n, 45 ≤ b ∧ b ≤ 57 := by
  cases n with
  | ofNat m =>
    intro b hb
    have := natToDec_bytes m b hb
    omega
  | negSucc m =>
    intro b hb
    rw [intToDec] at hb
    rcases List.mem_cons.mp hb with rfl | h
    · omega
    · have := natToDec_bytes (m + 1) b h
      omega

theorem intToDec_no_lf (n : Int) : 10 ∉ intToDec n := by
  intro h
  have := intToDec_bytes n 10 h
  omega

theorem intToDec_utf8 (n : Int) : utf8Valid (intToDec n) = true :=
  utf8Valid_ascii (fun b hb => by have := intToDec_bytes n b hb; omega)

theorem natToDec_no_lf (n : Nat) : 10 ∉ natToDec n := by
  intro h
  have := natToDec_bytes n 10 h
  omega

theorem natToDec_utf8 (n : Nat) : utf8Valid (natToDec n) = true :=
  utf8Valid_ascii (fun b hb => by have := natToDec_bytes n b hb; omega)

/-! The round-trip law for the codec. -/

theorem serialize_length_pos (v : RespDataType) : 1 ≤ (serialize v).length := by
  cases v with
  | simpleStrings s => simp [serialize]
  | errors s => simp [serialize]
  | integers n => simp [serialize]
  | bulkStrings s => cases s <;> simp [serialize]
  | arrays a => cases a <;> simp [serialize]

theorem serializeList_mem_length {v : RespDataType} : ∀ {a : List RespDataType}, v ∈ a →
    (serialize v).length ≤ (serializeList a).length := by
  intro a h
  induction a with
  | nil => cases h
  | cons x xs ih =>
    rcases List.mem_cons.mp h with rfl | h2
    · simp [serializeList]
    · have := ih h2
      simp only [serializeList, List.length_append]
      omega

theorem deserializeListF_ok : ∀ (a : List RespDataType) (f : Nat) (r : List Nat),
    (∀ v ∈ a, ∀ f2 r2, (serialize v).length ≤ f2 →
      deserializeF f2 (serialize v ++ r2) = .ok (v, r2)) →
    (serializeList a).length + 1 ≤ f →
    deserializeListF f a.length (serializeList a ++ r) = .ok (a, r) := by
  intro a
  induction a with
  | nil =>
    intro f r _ _
    simp [serializeList, deserializeListF]
  | cons x xs ih =>
    intro f r hel hf
    have hx1 : 1 ≤ (serialize x).length := serialize_length_pos x
    simp only [serializeList, List.length_append] at hf
    match f, hf with
    | f2 + 1, hf =>
      have hd := hel x (by simp) f2 (serializeList xs ++ r) (by omega)
      have hi := ih f2 r (fun v hv => hel v (by simp [hv])) (by omega)
      simp only [List.length_cons, serializeList, List.append_assoc]
      rw [deserializeListF, hd]
      simp [hi]

theorem deserializeF_serialize {v : RespDataType} (hv : Valid v) :
    ∀ (f : Nat) (r : List Nat), (serialize v).length ≤ f →
      deserializeF f (serialize v ++ r) = .ok (v, r) := by
  induction hv with
  | @simpleStrings s hval h10 =>
    intro f r hf
    obtain ⟨f2, rfl⟩ : ∃ f2, f = f2 + 1 := by
      have := serialize_length_pos (.simpleStrings s)
      exact ⟨f - 1, by omega⟩
    simp only [serialize, List.cons_append]
    rw [deserializeF]
    rw [readLine_crlf h10 hval r]
    simp [stripTrailingNewline_crlf]
  | @errors s hval h10 =>
    intro f r hf
    obtain ⟨f2, rfl⟩ : ∃ f2, f = f2 + 1 := by
      have := serialize_length_pos (.errors s)
      exact ⟨f - 1, by omega⟩
    simp only [serialize, List.cons_append]
    rw [deserializeF]
    rw [readLine_crlf h10 hval r]
    simp [stripTrailingNewline_crlf]
  | @integers n hlo hhi =>
    intro f r hf
    obtain ⟨f2, rfl⟩ : ∃ f2, f = f2 + 1 := by
      have := serialize_length_pos (.integers n)
      exact ⟨f - 1, by omega⟩
    simp only [serialize, List.cons_append]
    rw [deserializeF]
    rw [readLine_crlf (intToDec_no_lf n) (intToDec_utf8 n) r]
    simp [stripTrailingNewline_crlf, parseI64_intToDec n hlo hhi]
  | @bulkSome s hlen =>
    intro f r hf
    obtain ⟨f2, rfl⟩ : ∃ f2, f = f2 + 1 := by
      have := serialize_length_pos (.bulkStrings (some s))
      exact ⟨f - 1, by omega⟩
    simp only [serialize, List.cons_append]
    have harr : (natToDec s.length ++ [13, 10] ++ s ++ [13, 10]) ++ r =
        (natToDec s.length ++ [13, 10]) ++ (s ++ ([13, 10] ++ r)) := by simp
    rw [deserializeF, harr]
    rw [readLine_crlf (natToDec_no_lf s.length) (natToDec_utf8 s.length) (s ++ ([13, 10] ++ r))]
    have hparse : parseI64 (natToDec s.length) = .ok (s.length : Int) :=
      parseI64_natToDec s.length (by exact_mod_cast hlen)
    simp only [stripTrailingNewline_crlf, hparse]
    have hread : readExact ((s.length : Int)).toNat (s ++ ([13, 10] ++ r)) =
        .ok (s, [13, 10] ++ r) := by
      rw [Int.toNat_natCast, readExact, if_pos (by simp)]
      rw [List.take_left, List.drop_left]
    simp only [hread]
    have hnl : expectNewLine (13 :: 10 :: r) = .ok r := by
      rw [expectNewLine, readExact, if_pos (by simp)]
      simp [List.take, List.drop]
    simp [hnl]
  | bulkNone =>
    intro f r hf
    obtain ⟨f2, rfl⟩ : ∃ f2, f = f2 + 1 := by
      have := serialize_length_pos (.bulkStrings none)
      exact ⟨f - 1, by omega⟩
    rfl
  | arrNone =>
    intro f r hf
    obtain ⟨f2, rfl⟩ : ∃ f2, f = f2 + 1 := by
      have := serialize_length_pos (.arrays none)
      exact ⟨f - 1, by omega⟩
    rfl
  | @arrSome a hlen hels ih =>
    intro f r hf
    obtain ⟨f2, rfl⟩ : ∃ f2, f = f2 + 1 := by
      have := serialize_length_pos (.arrays (some a))
      exact ⟨f - 1, by omega⟩
    simp only [serialize, List.length_cons, List.length_append] at hf
    simp only [serialize, List.cons_append]
    have harr : (natToDec a.length ++ [13, 10] ++ serializeList a) ++ r =
        (natToDec a.length ++ [13, 10]) ++ (serializeList a ++ r) := by simp
    rw [deserializeF, harr]
    rw [readLine_crlf (natToDec_no_lf a.length) (natToDec_utf8 a.length) (serializeList a ++ r)]
    have hparse : parseI64 (natToDec a.length) = .ok (a.length : Int) :=
      parseI64_natToDec a.length (by exact_mod_cast hlen)
    simp only [stripTrailingNewline_crlf, hparse]
    have hloop : deserializeListF f2 a.length (serializeList a ++ r) = .ok (a, r) :=
      deserializeListF_ok a f2 r (fun v hv => ih v hv) (by omega)
    simp [hloop]

theorem deserialize_serialize {v : RespDataType} (hv : Valid v) :
    deserialize (serialize v) = .ok (v, []) := by
  rw [deserialize]
  have := deserializeF_serialize hv ((serialize v).length + 1) [] (by omega)
  simpa using this

theorem deserialize_serialize_rest {v : RespDataType} (hv : Valid v) (r : List Nat) :
    deserialize (serialize v ++ r) = .ok (v, r) := by
  rw [deserialize]
  exact deserializeF_serialize hv ((serialize v ++ r).length + 1) r
    (by simp [List.length_append]; omega)

theorem deserialize_negative_bulk (n : Int) (r : List Nat) (hn : n < 0)
    (hlo : -(2 ^ 63) ≤ n) :
    deserialize ((36 :: (intToDec n ++ [13, 10])) ++ r) = .ok (.bulkStrings none, r) := by
  rw [deserialize]
  simp only [List.cons_append]
  rw [deserializeF]
  rw [readLine_crlf (intToDec_no_lf n) (intToDec_utf8 n) r]
  have hp : parseI64 (intToDec n) = .ok n := parseI64_intToDec n hlo (by omega)
  simp [stripTrailingNewline_crlf, hp, if_neg (by omega : ¬0 ≤ n)]

theorem deserialize_negative_array (n : Int) (r : List Nat) (hn : n < 0)
    (hlo : -(2 ^ 63) ≤ n) :
    deserialize ((42 :: (intToDec n ++ [13, 10])) ++ r) = .ok (.arrays none, r) := by
  rw [deserialize]
  simp only [List.cons_append]
  rw [deserializeF]
  rw [readLine_crlf (intToDec_no_lf n) (intToDec_utf8 n) r]
  have hp : parseI64 (intToDec n) = .ok n := parseI64_intToDec n hlo (by omega)
  simp [stripTrailingNewline_crlf, hp, if_neg (by omega : ¬0 ≤ n)]

/-! Lemmas about the association-list store. -/

theorem storeGet_insert (ctx : Store) (k : List Nat) (v : RedisDataTypeWithTTL)
    (k2 : List Nat) :
    storeGet (storeInsert ctx k v) k2 = if k = k2 then some v else storeGet ctx k2 := by
  induction ctx with
  | nil => by_cases h : k = k2 <;> simp [storeInsert, storeGet, h]
  | cons p t ih =>
    obtain ⟨a, w⟩ := p
    by_cases hak : a = k
    · subst hak
      by_cases h2 : a = k2 <;> simp [storeInsert, storeGet, h2]
    · by_cases h2 : a = k2
      · subst h2
        have hkk2 : ¬k = a := fun h => hak h.symm
        simp [storeInsert, storeGet, hak, hkk2]
      · simp [storeInsert, storeGet, hak, h2, ih]

theorem storeGet_remove (ctx : Store) (k k2 : List Nat) :
    storeGet (storeRemove ctx k) k2 = if k = k2 then none else storeGet ctx k2 := by
  induction ctx with
  | nil => by_cases h : k = k2 <;> simp [storeRemove, storeGet, h]
  | cons p t ih =>
    obtain ⟨a, w⟩ := p
    by_cases hak : a = k
    · subst hak
      by_cases h2 : a = k2
      · subst h2
        simp [storeRemove, storeGet, ih]
      · simp [storeRemove, storeGet, h2, ih]
    · by_cases h2 : a = k2
      · subst h2
        have hkk2 : ¬k = a := fun h => hak h.symm
        simp [storeRemove, storeGet, hak, hkk2]
      · simp [storeRemove, storeGet, hak, h2, ih]

theorem exampleValue_valid : Valid exampleValue := by
  unfold exampleValue
  refine .arrSome (by norm_num) ?_
  intro x hx
  simp only [List.mem_cons, List.not_mem_nil, or_false] at hx
  rcases hx with rfl | rfl | rfl | rfl
  · exact .bulkSome (by norm_num)
  · exact .integers (by norm_num) (by norm_num)
  · exact .bulkNone
  · refine .arrSome (by norm_num) ?_
    intro y hy
    simp only [List.mem_cons, List.not_mem_nil, or_false] at hy
    subst hy
    exact .simpleStrings (by decide) (by decide)

theorem expectBulkStrings_ok {x m : RespDataType} (h : expectBulkStrings x = .ok m) :
    ∃ b, m = .bulkStrings b := by
  cases x <;> simp [expectBulkStrings] at h
  exact ⟨_, h.symm⟩

theorem intoBulkStrings_error {x : RespDataType} {e : List Nat}
    (h : intoBulkStrings x = .error e) : e = ascii (r"expected bulk strings") := by
  cases x <;> simp [intoBulkStrings] at h <;> exact h.symm

/-- Commands accepted by validation carry a bulk-string SET value: the
value argument passes expect_bulk_strings on both SET shapes. -/
theorem tryFromResp_set_value : ∀ {v : RespDataType} {c : Set},
    tryFromResp v = .ok (.set c) → ∃ b, c.value = .bulkStrings b := by
  intro v c h
  rcases v with s | s | n | ob | oa
  · simp [tryFromResp] at h
  · simp [tryFromResp] at h
  · simp [tryFromResp] at h
  · simp [tryFromResp] at h
  · rcases oa with _ | elems
    · simp [tryFromResp] at h
    · rcases elems with _ | ⟨hd, args⟩
      · simp [tryFromResp] at h
      · rcases hd with s | s | n | ob2 | oa2
        case cons.bulkStrings =>
          rcases ob2 with _ | str
          · simp [tryFromResp] at h
          · simp only [tryFromResp] at h
            by_cases h1 : utf8Valid (str.map toLowerByte) = true
            case neg => rw [if_neg h1] at h; exact absurd h (by simp)
            rw [if_pos h1] at h
            by_cases h2 : str.map toLowerByte = ascii (r"ping")
            · rw [if_pos h2] at h; exact absurd h (by simp)
            rw [if_neg h2] at h
            by_cases h3 : str.map toLowerByte = ascii (r"echo")
            · rw [if_pos h3] at h
              rcases hh : args.head? with _ | x <;> simp only [hh] at h
              · exact absurd h (by simp)
              · rcases he : expectBulkStrings x with e | m <;> simp only [he] at h <;>
                  exact absurd h (by simp)
            rw [if_neg h3] at h
            by_cases h4 : str.map toLowerByte = ascii (r"set")
            case neg =>
              rw [if_neg h4] at h
              by_cases h5 : str.map toLowerByte = ascii (r"get")
              · rw [if_pos h5] at h
                rcases hk0 : args[0]? with _ | k <;> simp only [hk0] at h
                · exact absurd h (by simp)
                · rcases hek : expectBulkStrings k with e | key <;> simp only [hek] at h <;>
                    exact absurd h (by simp)
              · rw [if_neg h5] at h; exact absurd h (by simp)
            rw [if_pos h4] at h
            rcases hk0 : args[0]? with _ | k <;> simp only [hk0] at h
            · exact absurd h (by simp)
            rcases hek : expectBulkStrings k with e | key <;> simp only [hek] at h
            · exact absurd h (by simp)
            rcases hk1 : args[1]? with _ | w <;> simp only [hk1] at h
            · exact absurd h (by simp)
            rcases hew : expectBulkStrings w with e | val <;> simp only [hew] at h
            · exact absurd h (by simp)
            obtain ⟨b, rfl⟩ := expectBulkStrings_ok hew
            rcases hk2 : args[2]? with _ | et <;> rcases hk3 : args[3]? with _ | ev <;>
              simp only [hk2, hk3] at h
            · injection h with h9
              injection h9 with h10
              rw [← h10]
              exact ⟨b, rfl⟩
            · exact absurd h (by simp)
            · exact absurd h (by simp)
            · rcases hib : intoBulkStrings et with e | (_ | tb) <;> simp only [hib] at h
              · exact absurd h (by simp)
              · exact absurd h (by simp)
              by_cases h6 : utf8Valid tb = true
              case neg => rw [if_neg h6] at h; exact absurd h (by simp)
              rw [if_pos h6] at h
              rcases hii : intoIntegers ev with e | nn <;> simp only [hii] at h
              · exact absurd h (by simp)
              by_cases h7 : nn < 0
              · rw [if_pos h7] at h; exact absurd h (by simp)
              rw [if_neg h7] at h
              by_cases h8 : tb.map toLowerByte = ascii (r"px")
              · rw [if_pos h8] at h
                injection h with h9
                injection h9 with h10
                rw [← h10]
                exact ⟨b, rfl⟩
              · rw [if_neg h8] at h; exact absurd h (by simp)
        all_goals simp [tryFromResp] at h

/-- SET preserves the all-strings store invariant whenever its value
argument is a bulk string: a null bulk has no store representation and
the command fails before touching the store, and a non-null bulk is
stored as a string entry. -/
theorem setExecute_storeOk {c : Set} {b : Option (List Nat)}
    (hb : c.value = .bulkStrings b) (now : Nat) {ctx : Store} (hok : StoreOk ctx) :
    StoreOk (setExecute c now ctx).2 := by
  rw [setExecute]
  rcases hkay : intoBulkStrings c.key with e | (_ | kb) <;> simp only [hkay]
  · exact hok
  · exact hok
  by_cases hu : utf8Valid kb = true
  case neg => rw [if_neg hu]; exact hok
  rw [if_pos hu]
  rw [hb]
  rcases b with _ | x
  · exact hok
  simp only [respToRedis]
  intro k e hget
  rw [storeGet_insert] at hget
  by_cases hkk : kb = k
  · rw [if_pos hkk] at hget
    injection hget with hget
    cases hce : c.expiry <;> rw [hce] at hget <;> rw [← hget] <;> exact ⟨x, rfl⟩
  · rw [if_neg hkk] at hget
    exact hok k e hget

/-- GET preserves the all-strings store invariant: it either leaves the
store alone or removes one key. -/
theorem getExecute_storeOk {c : Get} (now : Nat) {ctx : Store} (hok : StoreOk ctx) :
    StoreOk (getExecute c now ctx).2 := by
  have hrem : ∀ kb, StoreOk (storeRemove ctx kb) := by
    intro kb k e hget
    rw [storeGet_remove] at hget
    by_cases hkk : kb = k
    · rw [if_pos hkk] at hget; cases hget
    · rw [if_neg hkk] at hget; exact hok k e hget
  rw [getExecute]
  rcases hkay : intoBulkStrings c.key with e | (_ | kb) <;> simp only [hkay]
  · exact hok
  · exact hok
  by_cases hu : utf8Valid kb = true
  case neg => rw [if_neg hu]; exact hok
  rw [if_pos hu]
  rcases hlook : storeGet ctx kb with _ | ((s | n | a) | ⟨s | n | a, dl⟩) <;>
    simp only [hlook]
  · exact hok
  · exact hok
  · exact hok
  · exact hok
  · by_cases ht : dl < now
    · rw [if_pos ht]; exact hrem kb
    · rw [if_neg ht]; exact hok
  · exact hok
  · exact hok

/-- Processing any single decoded request preserves the all-strings
store invariant. -/
theorem processValue_storeOk {ctx : Store} (hok : StoreOk ctx) (now : Nat)
    (req : RespDataType) : StoreOk (processValue now ctx req).2 := by
  rw [processValue]
  rcases hp : tryFromResp req with e | cmd <;> simp only [hp]
  · exact hok
  rcases cmd with c | c | c | c
  · simp only [executeCommand, pingExecute]
    exact hok
  · simp only [executeCommand, echoExecute]
    exact hok
  · obtain ⟨b, hb⟩ := tryFromResp_set_value hp
    have hs := setExecute_storeOk hb now hok
    simp only [executeCommand]
    rcases hres : setExecute c now ctx with ⟨r1, ctx2⟩
    rw [hres] at hs
    cases r1 <;> exact hs
  · have hs := getExecute_storeOk (c := c) now hok
    simp only [executeCommand]
    rcases hres : getExecute c now ctx with ⟨r1, ctx2⟩
    rw [hres] at hs
    cases r1 <;> exact hs

/-- The connection loop preserves the all-strings store invariant over
any request sequence. -/
theorem serverRun_storeOk : ∀ (reqs : List (Nat × RespDataType)) (ctx : Store),
    StoreOk ctx → StoreOk (serverRun reqs ctx).2 := by
  intro reqs
  induction reqs with
  | nil => intro ctx hok; exact hok
  | cons p t ih =>
    intro ctx hok
    obtain ⟨now, req⟩ := p
    exact ih _ (processValue_storeOk hok now req)

/-- On a store satisfying the all-strings invariant, the type-mismatch
branch of GET can never fire. -/
theorem getExecute_no_type_error {ctx : Store} (hok : StoreOk ctx) (c : Get) (now : Nat) :
    (getExecute c now ctx).1 ≠ .error (ascii (r"entry is not a bulk string")) := by
  rw [getExecute]
  rcases hkay : intoBulkStrings c.key with e | (_ | kb) <;> simp only [hkay]
  · rw [intoBulkStrings_error hkay]
    simp only [ne_eq, Except.error.injEq]
    decide
  · simp only [ne_eq, Except.error.injEq]
    decide
  by_cases hu : utf8Valid kb = true
  case neg =>
    rw [if_neg hu]
    simp only [ne_eq, Except.error.injEq]
    decide
  rw [if_pos hu]
  rcases hlook : storeGet ctx kb with _ | ((s | n | a) | ⟨s | n | a, dl⟩) <;>
    simp only [hlook]
  · simp
  · simp
  · obtain ⟨s2, hs2⟩ := hok kb _ hlook
    simp [entryValue] at hs2
  · obtain ⟨s2, hs2⟩ := hok kb _ hlook
    simp [entryValue] at hs2
  · by_cases ht : dl < now
    · rw [if_pos ht]; simp
    · rw [if_neg ht]; simp
  · obtain ⟨s2, hs2⟩ := hok kb _ hlook
    simp [entryValue] at hs2
  · obtain ⟨s2, hs2⟩ := hok kb _ hlook
    simp [entryValue] at hs2

/-! The claims. -/

/-- Claim C1 (corrected): the round trip holds for every constructible
protocol value that respects the wire invariants (UTF-8 one-line simple
strings and errors without an embedded line feed, i64-range integers
and lengths), in both directions: deserializing a serialization yields
the value back with nothing left over, and a well-formed encoding (the
serialization of such a value) is reproduced byte-for-byte by
serializing the deserialized value.  The unrestricted claim is refuted
by c1_round_trip_counterexample. -/
theorem c1_round_trip :
    (∀ v, Valid v → deserialize (serialize v) = .ok (v, [])) ∧
    (∀ b, (∃ v, Valid v ∧ serialize v = b) →
      ∃ v, deserialize b = .ok (v, []) ∧ serialize v = b) := by
  constructor
  · intro v hv
    exact deserialize_serialize hv
  · rintro b ⟨v, hv, rfl⟩
    exact ⟨v, deserialize_serialize hv, rfl⟩

/-- Claim C1, witness: the round trip evaluated on a nested sample value
and on a concrete well-formed encoding. -/
theorem c1_round_trip_witness :
    deserialize (serialize exampleValue) = .ok (exampleValue, []) ∧
    (∃ v, deserialize [43, 72, 73, 13, 10] = .ok (v, []) ∧
      serialize v = [43, 72, 73, 13, 10]) :=
  ⟨c1_round_trip.1 exampleValue exampleValue_valid,
   c1_round_trip.2 [43, 72, 73, 13, 10]
     ⟨.simpleStrings [72, 73], .simpleStrings (by decide) (by decide), rfl⟩⟩

/-- Claim C1, counterexample: the claim quantifies over every
constructible protocol value, but a simple string containing a line
feed does not survive the round trip: serializing the one-byte simple
string LF and deserializing gives back the empty simple string with
unconsumed input, because read_line stops at the embedded line feed. -/
theorem c1_round_trip_counterexample :
    deserialize (serialize (.simpleStrings [10])) ≠ .ok (.simpleStrings [10], []) := by
  intro hc
  have h : deserialize (serialize (.simpleStrings [10])) =
      .ok (.simpleStrings [], [13, 10]) := rfl
  rw [h] at hc
  simp at hc

/-- Claim C3 (corrected): a non-negative length or count line after a
tag reads exactly that many payload bytes or elements; but every
negative value, not only -1, produces the null bulk string or null
array, because the implementation tests only n >= 0 and treats the
whole negative range alike.  The claim that values below -1 fail is
refuted by c3_length_line_counterexample. -/
theorem c3_length_line_semantics :
    (∀ (s r : List Nat), s.length < 2 ^ 63 →
      deserialize (serialize (.bulkStrings (some s)) ++ r) = .ok (.bulkStrings (some s), r)) ∧
    (∀ (n : Int) (r : List Nat), n < 0 → -(2 ^ 63) ≤ n →
      deserialize ((36 :: (intToDec n ++ [13, 10])) ++ r) = .ok (.bulkStrings none, r)) ∧
    (∀ (a : List RespDataType) (r : List Nat), Valid (.arrays (some a)) →
      deserialize (serialize (.arrays (some a)) ++ r) = .ok (.arrays (some a), r)) ∧
    (∀ (n : Int) (r : List Nat), n < 0 → -(2 ^ 63) ≤ n →
      deserialize ((42 :: (intToDec n ++ [13, 10])) ++ r) = .ok (.arrays none, r)) := by
  refine ⟨?_, ?_, ?_, ?_⟩
  · intro s r hlen
    exact deserialize_serialize_rest (.bulkSome hlen) r
  · intro n r hn hlo
    exact deserialize_negative_bulk n r hn hlo
  · intro a r hv
    exact deserialize_serialize_rest hv r
  · intro n r hn hlo
    exact deserialize_negative_array n r hn hlo

/-- Claim C3, witness: the four length-line behaviours evaluated on
concrete inputs, among them the header line -2. -/
theorem c3_length_line_witness :
    deserialize (serialize (.bulkStrings (some [104, 105])) ++ [99]) =
      .ok (.bulkStrings (some [104, 105]), [99]) ∧
    deserialize ((36 :: (intToDec (-2) ++ [13, 10])) ++ [99]) = .ok (.bulkStrings none, [99]) ∧
    deserialize (serialize (.arrays (some [.integers 0])) ++ [99]) =
      .ok (.arrays (some [.integers 0]), [99]) ∧
    deserialize ((42 :: (intToDec (-3) ++ [13, 10])) ++ [99]) = .ok (.arrays none, [99]) :=
  ⟨c3_length_line_semantics.1 [104, 105] [99] (by norm_num),
   c3_length_line_semantics.2.1 (-2) [99] (by norm_num) (by norm_num),
   c3_length_line_semantics.2.2.1 [.integers 0] [99]
     (.arrSome (by norm_num) (fun v hv => by
       simp only [List.mem_cons, List.not_mem_nil, or_false] at hv
       subst hv
       exact .integers (by norm_num) (by norm_num))),
   c3_length_line_semantics.2.2.2 (-3) [99] (by norm_num) (by norm_num)⟩

/-- Claim C3, counterexample: the length line -2 after a bulk-string
tag does not make deserialization fail; it yields the null bulk string
exactly as -1 does. -/
theorem c3_length_line_counterexample :
    deserialize [36, 45, 50, 13, 10] = .ok (.bulkStrings none, []) := rfl

/-- Claim C2 (confirmed): after SET stores key k with string value v and
expiry d at time t0, a GET at any time up to and including the deadline
t0 + d returns the stored string and leaves the store as it was; a GET
past the deadline returns the null bulk string and removes the key, so
the key is absent afterwards and every later GET on it returns the null
bulk string whatever the clock reads. -/
theorem c2_ttl_lazy_expiration (k v : List Nat) (d t0 : Nat) (ctx : Store)
    (hk : utf8Valid k = true) (ctx2 : Store)
    (hctx2 : setExecute ⟨.bulkStrings (some k), .bulkStrings (some v), some d⟩ t0 ctx =
      (.ok (.simpleStrings (ascii (r"OK"))), ctx2)) :
    (∀ t, t ≤ t0 + d →
      getExecute ⟨.bulkStrings (some k)⟩ t ctx2 = (.ok (.bulkStrings (some v)), ctx2)) ∧
    (∀ t, t0 + d < t →
      getExecute ⟨.bulkStrings (some k)⟩ t ctx2 =
        (.ok (.bulkStrings none), storeRemove ctx2 k) ∧
      storeGet (storeRemove ctx2 k) k = none ∧
      (∀ t2, getExecute ⟨.bulkStrings (some k)⟩ t2 (storeRemove ctx2 k) =
        (.ok (.bulkStrings none), storeRemove ctx2 k))) := by
  have hset : setExecute ⟨.bulkStrings (some k), .bulkStrings (some v), some d⟩ t0 ctx =
      (.ok (.simpleStrings (ascii (r"OK"))),
        storeInsert ctx k (.finite (.strings v) (t0 + d))) := by
    simp [setExecute, intoBulkStrings, hk, respToRedis]
  rw [hset] at hctx2
  have hctx2eq : ctx2 = storeInsert ctx k (.finite (.strings v) (t0 + d)) :=
    ((Prod.mk.injEq _ _ _ _).mp hctx2).2.symm
  have hlook : storeGet ctx2 k = some (.finite (.strings v) (t0 + d)) := by
    rw [hctx2eq, storeGet_insert]
    simp
  have hgone : storeGet (storeRemove ctx2 k) k = none := by
    rw [storeGet_remove]
    simp
  constructor
  · intro t ht
    simp [getExecute, intoBulkStrings, hk, hlook, if_neg (by omega : ¬(t0 + d < t))]
  · intro t ht
    refine ⟨?_, hgone, ?_⟩
    · simp [getExecute, intoBulkStrings, hk, hlook, if_pos ht]
    · intro t2
      simp [getExecute, intoBulkStrings, hk, hgone]

/-- Claim C2, witness: the law evaluated on a key stored at time 3 with
a 5 millisecond expiry, read back at the deadline 8 and just past it. -/
theorem c2_ttl_lazy_expiration_witness :
    getExecute ⟨.bulkStrings (some [107])⟩ 8 [([107], .finite (.strings [118]) 8)] =
      (.ok (.bulkStrings (some [118])), [([107], .finite (.strings [118]) 8)]) ∧
    getExecute ⟨.bulkStrings (some [107])⟩ 9 [([107], .finite (.strings [118]) 8)] =
      (.ok (.bulkStrings none), storeRemove [([107], .finite (.strings [118]) 8)] [107]) :=
  ⟨(c2_ttl_lazy_expiration [107] [118] 5 3 [] (by decide) _ rfl).1 8 (by decide),
   ((c2_ttl_lazy_expiration [107] [118] 5 3 [] (by decide) _ rfl).2 9 (by decide)).1⟩

/-- Claim C4 (code bug): the request SET foo bar PX 50, encoded as every
client request is as an array of bulk strings, decodes to the intended
value but is rejected by command validation with the error expected
integers, because the implementation extracts the millisecond count
with into_integers, which only accepts an integer-typed protocol value
and can never accept the bulk string a client sends.  The server
therefore replies with an error and never stores the key, where the
specified scenario expects OK followed by a lazy expiry. -/
theorem c4_set_px_bulk_request_rejected :
    deserialize [42, 53, 13, 10,
      36, 51, 13, 10, 83, 69, 84, 13, 10,
      36, 51, 13, 10, 102, 111, 111, 13, 10,
      36, 51, 13, 10, 98, 97, 114, 13, 10,
      36, 50, 13, 10, 80, 88, 13, 10,
      36, 50, 13, 10, 53, 48, 13, 10] = .ok (setFooBarPx50, []) ∧
    tryFromResp setFooBarPx50 = .error (ascii (r"expected integers")) ∧
    (∀ now ctx, processValue now ctx setFooBarPx50 =
      (.errors (ascii (r"expected integers")), ctx)) := by
  refine ⟨rfl, rfl, ?_⟩
  intro now ctx
  rfl

/-- Claim C5 (confirmed): a malformed request whose top-level array
starts with an integer instead of a bulk string produces exactly one
error-tagged reply and leaves the store untouched, and the loop goes on:
a following well-formed PING on the same connection is answered with
PONG, which serializes to the bytes of the line +PONG. -/
theorem c5_malformed_then_ping (n : Int) (restArgs : List RespDataType) (ctx : Store)
    (t1 t2 : Nat) :
    serverRun [(t1, .arrays (some (.integers n :: restArgs))),
        (t2, .arrays (some [.bulkStrings (some (ascii (r"PING")))]))] ctx =
      ([.errors (ascii (r"expected bulk string")), .simpleStrings (ascii (r"PONG"))], ctx) ∧
    serialize (.simpleStrings (ascii (r"PONG"))) = [43, 80, 79, 78, 71, 13, 10] :=
  ⟨rfl, rfl⟩

/-- Claim C6 (confirmed): SET on a key already present replaces both the
stored value and the TTL state with the new ones, whatever the previous
entry held, returns the simple string OK, and touches no other key. -/
theorem c6_set_overwrite (ctx : Store) (k : List Nat) (hk : utf8Valid k = true)
    (_hpres : (storeGet ctx k).isSome = true) (v : List Nat) (e : Option Nat) (now : Nat) :
    (setExecute ⟨.bulkStrings (some k), .bulkStrings (some v), e⟩ now ctx).1 =
      .ok (.simpleStrings (ascii (r"OK"))) ∧
    storeGet (setExecute ⟨.bulkStrings (some k), .bulkStrings (some v), e⟩ now ctx).2 k =
      some (match e with
        | some d => .finite (.strings v) (now + d)
        | none => .infinite (.strings v)) ∧
    (∀ k2, k2 ≠ k →
      storeGet (setExecute ⟨.bulkStrings (some k), .bulkStrings (some v), e⟩ now ctx).2 k2 =
        storeGet ctx k2) := by
  have hset : setExecute ⟨.bulkStrings (some k), .bulkStrings (some v), e⟩ now ctx =
      (.ok (.simpleStrings (ascii (r"OK"))),
        storeInsert ctx k (match e with
          | some d => .finite (.strings v) (now + d)
          | none => .infinite (.strings v))) := by
    cases e <;> simp [setExecute, intoBulkStrings, hk, respToRedis]
  rw [hset]
  refine ⟨rfl, ?_, ?_⟩
  · rw [storeGet_insert]
    simp
  · intro k2 hne
    rw [storeGet_insert, if_neg (fun h => hne h.symm)]

/-- Claim C6, witness: overwriting a finite-deadline integer entry with
an infinite string entry. -/
theorem c6_set_overwrite_witness :
    (setExecute ⟨.bulkStrings (some [107]), .bulkStrings (some [118]), none⟩ 9
        [([107], .finite (.integers 3) 4)]).1 = .ok (.simpleStrings (ascii (r"OK"))) ∧
    storeGet (setExecute ⟨.bulkStrings (some [107]), .bulkStrings (some [118]), none⟩ 9
        [([107], .finite (.integers 3) 4)]).2 [107] = some (.infinite (.strings [118])) :=
  ⟨(c6_set_overwrite [([107], .finite (.integers 3) 4)] [107] (by decide) (by decide)
      [118] none 9).1,
   (c6_set_overwrite [([107], .finite (.integers 3) 4)] [107] (by decide) (by decide)
      [118] none 9).2.1⟩

/-- Claim C7 (confirmed): GET on a key absent from the store returns the
null bulk string and returns the store exactly as it was, so no entry is
created. -/
theorem c7_get_absent (ctx : Store) (k : List Nat) (now : Nat)
    (hk : utf8Valid k = true) (habs : storeGet ctx k = none) :
    getExecute ⟨.bulkStrings (some k)⟩ now ctx = (.ok (.bulkStrings none), ctx) := by
  simp [getExecute, intoBulkStrings, hk, habs]

/-- Claim C7, witness: a missing key read against a non-empty store. -/
theorem c7_get_absent_witness :
    getExecute ⟨.bulkStrings (some [109])⟩ 5 [([107], .infinite (.strings [118]))] =
      (.ok (.bulkStrings none), [([107], .infinite (.strings [118]))]) :=
  c7_get_absent [([107], .infinite (.strings [118]))] [109] 5 (by decide) rfl

/-- Claim C10 (confirmed): SET and GET whose key argument is the null
bulk string, or whose key bytes are not valid UTF-8, fail with an error
and return the store exactly as it was: no entry is created, modified
or removed on these paths. -/
theorem c10_key_errors_atomic (ctx : Store) (now : Nat) :
    (∀ v e, setExecute ⟨.bulkStrings none, v, e⟩ now ctx =
      (.error (ascii (r"empty key")), ctx)) ∧
    (∀ kb v e, utf8Valid kb = false →
      setExecute ⟨.bulkStrings (some kb), v, e⟩ now ctx =
        (.error (ascii (r"invalid utf-8 sequence")), ctx)) ∧
    getExecute ⟨.bulkStrings none⟩ now ctx = (.error (ascii (r"empty key")), ctx) ∧
    (∀ kb, utf8Valid kb = false →
      getExecute ⟨.bulkStrings (some kb)⟩ now ctx =
        (.error (ascii (r"invalid utf-8 sequence")), ctx)) := by
  refine ⟨?_, ?_, rfl, ?_⟩
  · intro v e
    rfl
  · intro kb v e hbad
    simp [setExecute, intoBulkStrings, hbad]
  · intro kb hbad
    simp [getExecute, intoBulkStrings, hbad]

/-- Claim C10, witness: the four key-error paths evaluated on a
singleton store, with the lone byte 255 as the invalid UTF-8 key. -/
theorem c10_key_errors_atomic_witness :
    setExecute ⟨.bulkStrings none, .bulkStrings (some [118]), none⟩ 0
        [([107], .infinite (.strings [118]))] =
      (.error (ascii (r"empty key")), [([107], .infinite (.strings [118]))]) ∧
    setExecute ⟨.bulkStrings (some [255]), .bulkStrings (some [118]), none⟩ 0
        [([107], .infinite (.strings [118]))] =
      (.error (ascii (r"invalid utf-8 sequence")), [([107], .infinite (.strings [118]))]) ∧
    getExecute ⟨.bulkStrings (some [255])⟩ 0 [([107], .infinite (.strings [118]))] =
      (.error (ascii (r"invalid utf-8 sequence")), [([107], .infinite (.strings [118]))]) :=
  ⟨(c10_key_errors_atomic [([107], .infinite (.strings [118]))] 0).1
      (.bulkStrings (some [118])) none,
   (c10_key_errors_atomic [([107], .infinite (.strings [118]))] 0).2.1
      [255] (.bulkStrings (some [118])) none (by decide),
   (c10_key_errors_atomic [([107], .infinite (.strings [118]))] 0).2.2.2 [255] (by decide)⟩

/-- Claim C8 (corrected): PING validation never rejects its argument
list: when the first argument is a bulk string it becomes the echoed
payload, and a first argument of any other protocol type is silently
ignored rather than surfaced as a validation error, leaving PING with no
payload so that execution replies PONG; extra arguments are ignored
alike.  The claim that a non-bulk argument is an error is refuted by
c8_ping_validation_counterexample. -/
theorem c8_ping_validation :
    (∀ (args : List RespDataType) (b : Option (List Nat)),
      args.head? = some (.bulkStrings b) →
      tryFromResp (.arrays (some (.bulkStrings (some (ascii (r"ping"))) :: args))) =
        .ok (.ping ⟨some (.bulkStrings b)⟩)) ∧
    (∀ args : List RespDataType, (∀ b : Option (List Nat), args.head? ≠ some (.bulkStrings b)) →
      tryFromResp (.arrays (some (.bulkStrings (some (ascii (r"ping"))) :: args))) =
        .ok (.ping ⟨none⟩)) ∧
    pingExecute ⟨none⟩ = .ok (.simpleStrings (ascii (r"PONG"))) := by
  have hred : ∀ args : List RespDataType,
      tryFromResp (.arrays (some (.bulkStrings (some (ascii (r"ping"))) :: args))) =
        .ok (.ping ⟨args.head?.bind (fun x => (expectBulkStrings x).toOption)⟩) :=
    fun args => rfl
  refine ⟨?_, ?_, rfl⟩
  · intro args b h
    rw [hred args, h]
    rfl
  · intro args h
    rw [hred args]
    rcases hh : args.head? with _ | x
    · rfl
    · rcases x with s | s | n | ob | oa
      · rfl
      · rfl
      · rfl
      · exact absurd hh (h ob)
      · rfl

/-- Claim C8, witness: a bulk-string PING argument is echoed, and an
errors-typed PING argument is accepted with no payload. -/
theorem c8_ping_validation_witness :
    tryFromResp (.arrays (some [.bulkStrings (some (ascii (r"ping"))),
        .bulkStrings (some [104])])) = .ok (.ping ⟨some (.bulkStrings (some [104]))⟩) ∧
    tryFromResp (.arrays (some [.bulkStrings (some (ascii (r"ping"))), .errors [101]])) =
      .ok (.ping ⟨none⟩) :=
  ⟨c8_ping_validation.1 [.bulkStrings (some [104])] (some [104]) rfl,
   c8_ping_validation.2.1 [.errors [101]] (fun b => by simp)⟩

/-- Claim C8, counterexample: a PING whose present argument is an
integer is not a command-validation error; it validates successfully to
a PING with no payload. -/
theorem c8_ping_validation_counterexample :
    tryFromResp (.arrays (some [.bulkStrings (some (ascii (r"PING"))), .integers 5])) =
      .ok (.ping ⟨none⟩) := rfl

/-- Claim C9 (confirmed): starting from the empty store, every store
reachable through sequences of processed requests contains only string
entries, because a validated SET value is necessarily a bulk string and
only its non-null form converts — to the string variant; consequently
the type-mismatch branch of GET (the error entry is not a bulk string)
can never fire against a reachable store. -/
theorem c9_only_string_entries (reqs : List (Nat × RespDataType)) :
    StoreOk (serverRun reqs []).2 ∧
    ∀ (c : Get) (now : Nat),
      (getExecute c now (serverRun reqs []).2).1 ≠
        .error (ascii (r"entry is not a bulk string")) := by
  have hempty : StoreOk ([] : Store) := by
    intro k e h
    simp [storeGet] at h
  have h := serverRun_storeOk reqs [] hempty
  exact ⟨h, fun c now => getExecute_no_type_error h c now⟩

/-- Claim C9, witness: after one SET processed from the empty store, a
GET on the written key does not hit the type-mismatch branch. -/
theorem c9_only_string_entries_witness :
    (getExecute ⟨.bulkStrings (some [107])⟩ 1
        (serverRun [(0, .arrays (some [.bulkStrings (some (ascii (r"set"))),
          .bulkStrings (some [107]), .bulkStrings (some [118])]))] []).2).1 ≠
      .error (ascii (r"entry is not a bulk string")) :=
  (c9_only_string_entries [(0, .arrays (some [.bulkStrings (some (ascii (r"set"))),
    .bulkStrings (some [107]), .bulkStrings (some [118])]))]).2
    ⟨.bulkStrings (some [107])⟩ 1

end Redis
